import Mathlib

/-!
A shallow embedding of the column-mapping / budget-normalization /
concatenation pipeline of `streamlint.py` (the policy inventory master
dataset builder), together with proofs about its specification.

Tables model pandas `DataFrame`s restricted to what the pipeline uses:
an ordered list of named columns over a row index `0 .. nrows - 1`.
-/

set_option autoImplicit false

/-- A cell of a tabular dataset: `Cell.nan` models a missing value
(pandas `NaN`), `Cell.str` a text cell and `Cell.nat` an integer cell
(integers appear through the identifier renumbering `range(1, len+1)`). -/
inductive Cell where
  | nan : Cell
  | str (s : String) : Cell
  | nat (n : Nat) : Cell
  deriving DecidableEq, Repr

/-- A pandas `DataFrame` as used by the pipeline: a row count and an ordered
list of named columns.  A well-formed table (`Table.WF`) stores `nrows`
cells in every column. -/
structure Table where
  nrows : Nat
  cols : List (String × List Cell)
  deriving DecidableEq, Repr

def Table.colNames (t : Table) : List String := t.cols.map Prod.fst

/-- `name in df.columns`. -/
def Table.hasCol (t : Table) (name : String) : Bool :=
  (t.cols.find? (fun c => c.1 == name)).isSome

/-- `df[name]` (first column carrying that label). -/
def Table.getCol (t : Table) (name : String) : List Cell :=
  match t.cols.find? (fun c => c.1 == name) with
  | some c => c.2
  | none => []

/-- Every column of the table stores exactly `nrows` cells. -/
def Table.WF (t : Table) : Prop := ∀ c ∈ t.cols, c.2.length = t.nrows

instance Table.instDecWF (t : Table) : Decidable t.WF :=
  inferInstanceAs (Decidable (∀ c ∈ t.cols, c.2.length = t.nrows))

/-- The cells of row `i`, in column order (missing positions read as NaN). -/
def Table.row (t : Table) (i : Nat) : List Cell :=
  t.cols.map (fun c => c.2.getD i Cell.nan)

/-- Positional reindexing of a column to `n` rows: pandas aligns an assigned
series on the shared `RangeIndex`, filling absent positions with `NaN`. -/
def align (vals : List Cell) (n : Nat) : List Cell :=
  (List.range n).map (fun i => vals.getD i Cell.nan)

/-- `standardized_df[name] = vals` on an already sized frame: pandas
replaces the column when the label exists and appends a new column at the
end otherwise. -/
def Table.setColRaw (t : Table) (name : String) (vals : List Cell) : Table :=
  if t.hasCol name then
    { t with cols := t.cols.map (fun c => if c.1 == name then (c.1, align vals t.nrows) else c) }
  else
    { t with cols := t.cols ++ [(name, align vals t.nrows)] }

/-- `standardized_df[name] = series`: on an empty frame pandas first adopts
the index of the assigned (non-empty) series, reindexing the existing
columns to all-NaN, and then performs the column assignment. -/
def Table.setSeries (t : Table) (name : String) (vals : List Cell) : Table :=
  (if t.nrows = 0 ∧ vals ≠ [] then
    { nrows := vals.length,
      cols := t.cols.map (fun c => (c.1, List.replicate vals.length Cell.nan)) }
  else t).setColRaw name vals

/-- `standardized_df[name] = np.nan`: a scalar assignment never changes the
row count; the column becomes all-NaN at the current length. -/
def Table.setAllNan (t : Table) (name : String) : Table :=
  t.setColRaw name (List.replicate t.nrows Cell.nan)

/-- An alias rule of the mapper dictionary: the Python value is `None`, a
single source-column name, or an ordered list of candidate names. -/
inductive AliasRule where
  | noMap : AliasRule
  | direct (s : String) : AliasRule
  | fallback (cands : List String) : AliasRule
  deriving DecidableEq, Repr

/-- The mapper dictionary, in insertion order. -/
abbrev Mapper := List (String × AliasRule)

/-- `MASTER_COLUMNS` of `streamlint.py`. -/
def MASTER_COLUMNS : List String := [
  "Sl No", "Title", "Type of document", "Publication/Adoption Date", "Country",
  "Goals/objectives/vision statements", "Problems/challenges identified",
  "Calls for action/intervention", "Demands with pledges, commitment, or funding (Yes/No)",
  "Indicators of urgency/priority", "Type of demand", "Description of the specific Innovation(s)",
  "Type of Innovation", "CGIAR Impact Area(s)", "SDG Contribution",
  "Stakeholder groups involved", "Stakeholder group needs/demand/effective demand", "URL"]

/-- `mapper_clim` of `streamlint.py`, entries in dictionary insertion
order. -/
def mapper_clim : Mapper := [
  ("Sl No", AliasRule.direct "Sl No"),
  ("Country", AliasRule.direct "Country"),
  ("Title", AliasRule.fallback
    ["Type of document (Policy; Program; Implementation plans; strategic plans, etc)", "Policy"]),
  ("Type of document", AliasRule.direct "Policy Type \n(e.g., Policy, Strategy, Action Plan.)"),
  ("Publication/Adoption Date", AliasRule.fallback
    ["Publication/Adoption Date", "Year of adoption"]),
  ("Thematic Focus (Brief description of the main themes or sectors covered (e.g., agriculture, forestry, gender, employment).)",
    AliasRule.direct
      "Thematic Focus (Brief description of the main themes or sectors covered (e.g., agriculture, forestry, gender, employment).)"),
  ("Goals/objectives/vision statements", AliasRule.direct
    "Objectives/Goals (Short summary of the stated aims or goals of the policy)."),
  ("Problems/challenges identified", AliasRule.direct
    "Remarks \n(Additional notes, such as challenges, reforms in progress, or relevance to global frameworks (e.g., SDGs).)"),
  ("Calls for action/intervention", AliasRule.direct
    "Key Provisions or Measures\nSummary of major policy actions or mechanisms introduced."),
  ("Demands with pledges, commitment, or funding (Yes/No)", AliasRule.direct
    "Budget Allocation (if any) Indicate if there is any budget attached and its size or source."),
  ("Description of the specific Innovation(s)", AliasRule.direct
    "Implementation Mechanism (Description of how the policy is implemented (e.g., through specific programs, agencies, funding mechanisms).)"),
  ("SDG Contribution", AliasRule.direct
    "Policy Linkages\nRelated policies or alignment with international frameworks (e.g., SDGs, UNFCCC)."),
  ("Stakeholder groups involved", AliasRule.direct
    "Implementation Agency \n(Ministry/departments/boards, etc..)"),
  ("URL", AliasRule.fallback ["URL", "Link to Full Document"]),
  ("Implementation Agency (Ministry/departments/boards, etc..)", AliasRule.direct
    "Implementation Agency (Ministry/departments/boards, etc..)"),
  ("Indicators of urgency/priority", AliasRule.noMap),
  ("Type of demand", AliasRule.noMap),
  ("Type of Innovation", AliasRule.noMap),
  ("CGIAR Impact Area(s)", AliasRule.noMap),
  ("Stakeholder group needs/demand/effective demand", AliasRule.noMap)]

/-- Which source column the mapping loop copies for one rule: a list value
is scanned for its first name `in df.columns`; a plain value is used when it
is truthy and `in df.columns`; otherwise (also for a `None` rule) nothing is
copied and the target is filled with NaN. -/
def loopResolve (df : Table) : AliasRule → Option String
  | AliasRule.noMap => none
  | AliasRule.direct s => if s ≠ "" ∧ df.hasCol s then some s else none
  | AliasRule.fallback cands => cands.find? (fun c => df.hasCol c)

/-- One iteration of the column-mapping loop of `process_file`. -/
def applyRule (df : Table) (t : Table) (target : String) (rule : AliasRule) : Table :=
  match loopResolve df rule with
  | some c => t.setSeries target (df.getCol c)
  | none => t.setAllNan target

/-- The loop body, as a fold step over mapper entries. -/
def mapStep (df : Table) (t : Table) (p : String × AliasRule) : Table :=
  applyRule df t p.1 p.2

/-- `pd.DataFrame(columns=MASTER_COLUMNS)`. -/
def emptyStd : Table := { nrows := 0, cols := MASTER_COLUMNS.map (fun c => (c, [])) }

/-- The column-mapping loop of `process_file`: fold the mapper entries, in
dictionary order, over the initially empty standardized frame. -/
def standardize (mapper : Mapper) (df : Table) : Table :=
  mapper.foldl (mapStep df) emptyStd

/-- The canonical field the budget normalizer rewrites. -/
def budgetTarget : String := "Demands with pledges, commitment, or funding (Yes/No)"

/-- The single source-column name `mapper_clim` assigns to the budget
field. -/
def budgetSrcName : String :=
  "Budget Allocation (if any) Indicate if there is any budget attached and its size or source."

/-- `no_strings` of `process_file`. -/
def no_strings : List String :=
  ["not specified", "no exclusive", "not publicly specified", "not direct", "no dedicated budget"]

/-- Lower-casing of a string, character by character (an executable
unfolding of `String.toLower`, which maps `Char.toLower` over the
characters). -/
def lowerStr (s : String) : String := String.mk (s.data.map Char.toLower)

/-- `fillna("").astype(str).str.lower()` applied to one cell. -/
def cellLowerText : Cell → String
  | Cell.nan => ""
  | Cell.str s => lowerStr s
  | Cell.nat n => toString n

/-- The mask `original.isna() | (lowered == "") | lowered.isin(no_strings)`
for one cell. -/
def isNoCell : Cell → Bool
  | Cell.nan => true
  | c => cellLowerText c == "" || no_strings.contains (cellLowerText c)

/-- One entry of the `np.where(mask, "No", "Yes")` result. -/
def budgetValue (c : Cell) : Cell := Cell.str (if isNoCell c then "No" else "Yes")

/-- `mapper.get(key)` followed by the list disambiguation
(`next((col for col in ... if col in df.columns), None)`) and the
truthiness-plus-membership test guarding the normalizer. -/
def resolveBudgetCol (mapper : Mapper) (df : Table) : Option String :=
  match (mapper.find? (fun p => p.1 == budgetTarget)).map Prod.snd with
  | some (AliasRule.direct s) => if s ≠ "" ∧ df.hasCol s then some s else none
  | some (AliasRule.fallback cands) =>
      match cands.find? (fun c => df.hasCol c) with
      | some c => if c ≠ "" then some c else none
      | none => none
  | _ => none

/-- The budget Yes/No rewrite of `process_file`; a no-op when no backing
source column resolves. -/
def applyBudget (mapper : Mapper) (df : Table) (t : Table) : Table :=
  match resolveBudgetCol mapper df with
  | some c => t.setSeries budgetTarget ((df.getCol c).map budgetValue)
  | none => t

/-- Indices of rows kept by `dropna(how='all')`: rows whose cells are not
all NaN across every column of the frame. -/
def keptRows (t : Table) : List Nat :=
  (List.range t.nrows).filter (fun i => !((t.row i).all (fun c => c == Cell.nan)))

/-- `standardized_df.dropna(how='all', inplace=True)`. -/
def dropEmptyRows (t : Table) : Table :=
  { nrows := (keptRows t).length,
    cols := t.cols.map (fun c => (c.1, (keptRows t).map (fun i => c.2.getD i Cell.nan))) }

/-- The mapping loop followed by the budget normalization: the state of
`standardized_df` just before `dropna`. -/
def mapAndNormalize (mapper : Mapper) (df : Table) : Table :=
  applyBudget mapper df (standardize mapper df)

/-- The whole body of `process_file` on a successfully loaded table. -/
def processTable (mapper : Mapper) (df : Table) : Table :=
  dropEmptyRows (mapAndNormalize mapper df)

/-- `process_file`: `none` models the `read_excel` failure path (the
function reports the error and returns `None`). -/
def process_file (mapper : Mapper) (loaded : Option Table) : Option Table :=
  loaded.map (processTable mapper)

/-- `pd.concat(all_dfs, ignore_index=True)` for frames sharing one column
list (as every `process_file` output does): each column is the positional
concatenation, in list order, of the input frames' columns. -/
def concatTables : List Table → Table
  | [] => { nrows := 0, cols := [] }
  | t0 :: rest =>
      { nrows := ((t0 :: rest).map Table.nrows).sum,
        cols := t0.colNames.map (fun name =>
          (name, ((t0 :: rest).map (fun t => align (t.getCol name) t.nrows)).flatten)) }

/-- `master_dataset["Sl No"] = range(1, len(master_dataset) + 1)`. -/
def renumberSlNo (t : Table) : Table :=
  t.setColRaw "Sl No" ((List.range t.nrows).map (fun i => Cell.nat (i + 1)))

/-- Concatenation plus identifier renumbering, as performed by `main`. -/
def buildMaster (dfs : List Table) : Table := renumberSlNo (concatTables dfs)

/-- The per-file test of `main`'s loop: a file contributes its processed
table iff `processed_df is not None and not processed_df.empty`. -/
def usable (f : Option Table) : Option Table :=
  match process_file mapper_clim f with
  | some t => if t.nrows = 0 then none else some t
  | none => none

/-- The accumulation loop of `main`: per-file results that are `None` or
empty are skipped; when no usable table remains, no master dataset is
produced (`st.info` path). -/
def assemble (files : List (Option Table)) : Option Table :=
  let all_dfs := files.filterMap usable
  if all_dfs.isEmpty then none else some (buildMaster all_dfs)

/-! ### Basic lemmas about columns and assignments -/

theorem align_length (vals : List Cell) (n : Nat) : (align vals n).length = n := by
  simp [align]

theorem align_self (vals : List Cell) : align vals vals.length = vals := by
  apply List.ext_getElem
  · simp [align]
  · intro i h1 h2
    simp [align, List.getD_eq_getElem?_getD, List.getElem?_eq_getElem h2]

theorem getD_replicate (n i : Nat) (a : Cell) : (List.replicate n a).getD i a = a := by
  rcases Nat.lt_or_ge i n with h | h
  · simp [List.getD_eq_getElem?_getD, List.getElem?_eq_getElem, h, List.getElem_replicate]
  · simp [List.getD_eq_getElem?_getD, List.getElem?_eq_none, List.length_replicate, h]

theorem find?_setEntries_self (cols : List (String × List Cell)) (w : List Cell) (name : String)
    (h : (cols.find? (fun c => c.1 == name)).isSome = true) :
    (cols.map (fun c => if c.1 == name then (c.1, w) else c)).find? (fun c => c.1 == name)
      = some (name, w) := by
  induction cols with
  | nil => simp at h
  | cons c cs ih =>
    by_cases hc : c.1 = name
    · have hhead : (if c.1 == name then (c.1, w) else c) = (c.1, w) := by simp [hc]
      rw [List.map_cons, hhead, List.find?_cons_of_pos _ (by simp [hc]), hc]
    · have hb : (c.1 == name) = false := by simp [hc]
      have hhead : (if c.1 == name then (c.1, w) else c) = c := by rw [hb]; rfl
      rw [List.find?_cons_of_neg _ (by simp [hc])] at h
      rw [List.map_cons, hhead, List.find?_cons_of_neg _ (by simp [hc])]
      exact ih h

theorem find?_setEntries_ne (cols : List (String × List Cell)) (w : List Cell)
    (name other : String) (hne : other ≠ name) :
    (cols.map (fun c => if c.1 == name then (c.1, w) else c)).find? (fun c => c.1 == other)
      = cols.find? (fun c => c.1 == other) := by
  induction cols with
  | nil => rfl
  | cons c cs ih =>
    by_cases hc : c.1 = name
    · have hhead : (if c.1 == name then (c.1, w) else c) = (c.1, w) := by simp [hc]
      have hco : ¬ (c.1 = other) := by rw [hc]; exact fun e => hne e.symm
      rw [List.map_cons, hhead, List.find?_cons_of_neg _ (by simp [hco]),
        List.find?_cons_of_neg _ (by simp [hco])]
      exact ih
    · have hhead : (if c.1 == name then (c.1, w) else c) = c := by simp [hc]
      by_cases hco : c.1 = other
      · rw [List.map_cons, hhead, List.find?_cons_of_pos _ (by simp [hco]),
          List.find?_cons_of_pos _ (by simp [hco])]
      · rw [List.map_cons, hhead, List.find?_cons_of_neg _ (by simp [hco]),
          List.find?_cons_of_neg _ (by simp [hco])]
        exact ih

theorem find?_append_single_self (cols : List (String × List Cell)) (w : List Cell)
    (name : String) (h : cols.find? (fun c => c.1 == name) = none) :
    (cols ++ [(name, w)]).find? (fun c => c.1 == name) = some (name, w) := by
  induction cols with
  | nil => rw [List.nil_append, List.find?_cons_of_pos _ (by simp)]
  | cons c cs ih =>
    by_cases hc : c.1 = name
    · rw [List.find?_cons_of_pos _ (by simp [hc])] at h
      exact absurd h (by simp)
    · rw [List.find?_cons_of_neg _ (by simp [hc])] at h
      rw [List.cons_append, List.find?_cons_of_neg _ (by simp [hc])]
      exact ih h

theorem find?_append_single_ne (cols : List (String × List Cell)) (w : List Cell)
    (name other : String) (hne : other ≠ name) :
    (cols ++ [(name, w)]).find? (fun c => c.1 == other)
      = cols.find? (fun c => c.1 == other) := by
  induction cols with
  | nil =>
    rw [List.nil_append, List.find?_cons_of_neg _ (by simp [Ne.symm hne])]
  | cons c cs ih =>
    by_cases hco : c.1 = other
    · rw [List.cons_append, List.find?_cons_of_pos _ (by simp [hco]),
        List.find?_cons_of_pos _ (by simp [hco])]
    · rw [List.cons_append, List.find?_cons_of_neg _ (by simp [hco]),
        List.find?_cons_of_neg _ (by simp [hco])]
      exact ih

theorem find?_map_const_snd (cols : List (String × List Cell)) (w : List Cell) (name : String) :
    (cols.map (fun c => (c.1, w))).find? (fun c => c.1 == name)
      = (cols.find? (fun c => c.1 == name)).map (fun c => (c.1, w)) := by
  induction cols with
  | nil => rfl
  | cons c cs ih =>
    by_cases hc : c.1 = name
    · rw [List.map_cons, List.find?_cons_of_pos _ (by simp [hc]),
        List.find?_cons_of_pos _ (by simp [hc])]
      rfl
    · rw [List.map_cons, List.find?_cons_of_neg _ (by simp [hc]),
        List.find?_cons_of_neg _ (by simp [hc])]
      exact ih

theorem align_replicate (n : Nat) :
    align (List.replicate n Cell.nan) n = List.replicate n Cell.nan := by
  apply List.ext_getElem
  · simp [align_length]
  · intro i h1 h2
    simp [align, getD_replicate, List.getElem_replicate]

theorem Table.find?_eq_none_of_hasCol_false (t : Table) (name : String)
    (h : t.hasCol name = false) : t.cols.find? (fun c => c.1 == name) = none := by
  unfold Table.hasCol at h
  exact Option.not_isSome_iff_eq_none.mp (by simp [h])

theorem Table.nrows_setColRaw (t : Table) (name : String) (vals : List Cell) :
    (t.setColRaw name vals).nrows = t.nrows := by
  unfold Table.setColRaw
  split <;> rfl

theorem Table.getCol_setColRaw_self (t : Table) (name : String) (vals : List Cell) :
    (t.setColRaw name vals).getCol name = align vals t.nrows := by
  unfold Table.setColRaw
  by_cases h : t.hasCol name = true
  · rw [if_pos h]
    unfold Table.getCol
    rw [find?_setEntries_self _ _ _ h]
  · rw [if_neg h]
    unfold Table.getCol
    rw [find?_append_single_self _ _ _
      (t.find?_eq_none_of_hasCol_false name (Bool.eq_false_iff.mpr h))]

theorem Table.getCol_setColRaw_ne (t : Table) (name : String) (vals : List Cell)
    (other : String) (hne : other ≠ name) :
    (t.setColRaw name vals).getCol other = t.getCol other := by
  unfold Table.setColRaw
  by_cases h : t.hasCol name = true
  · rw [if_pos h]
    unfold Table.getCol
    rw [find?_setEntries_ne _ _ _ _ hne]
  · rw [if_neg h]
    unfold Table.getCol
    rw [find?_append_single_ne _ _ _ _ hne]

theorem Table.hasCol_setColRaw_self (t : Table) (name : String) (vals : List Cell) :
    (t.setColRaw name vals).hasCol name = true := by
  unfold Table.setColRaw
  by_cases h : t.hasCol name = true
  · rw [if_pos h]
    unfold Table.hasCol
    rw [find?_setEntries_self _ _ _ h]
    rfl
  · rw [if_neg h]
    unfold Table.hasCol
    rw [find?_append_single_self _ _ _
      (t.find?_eq_none_of_hasCol_false name (Bool.eq_false_iff.mpr h))]
    rfl

theorem Table.hasCol_setColRaw_ne (t : Table) (name : String) (vals : List Cell)
    (other : String) (hne : other ≠ name) :
    (t.setColRaw name vals).hasCol other = t.hasCol other := by
  unfold Table.setColRaw
  by_cases h : t.hasCol name = true
  · rw [if_pos h]
    unfold Table.hasCol
    rw [find?_setEntries_ne _ _ _ _ hne]
  · rw [if_neg h]
    unfold Table.hasCol
    rw [find?_append_single_ne _ _ _ _ hne]

theorem Table.colNames_setColRaw (t : Table) (name : String) (vals : List Cell) :
    (t.setColRaw name vals).colNames =
      if t.hasCol name then t.colNames else t.colNames ++ [name] := by
  unfold Table.setColRaw
  by_cases h : t.hasCol name = true
  · rw [if_pos h, if_pos h]
    show (t.cols.map _).map Prod.fst = t.cols.map Prod.fst
    rw [List.map_map]
    apply List.map_congr_left
    intro a _
    by_cases ha : (a.1 == name) = true
    · show Prod.fst (if (a.1 == name) = true then (a.1, align vals t.nrows) else a) = a.1
      rw [if_pos ha]
    · show Prod.fst (if (a.1 == name) = true then (a.1, align vals t.nrows) else a) = a.1
      rw [if_neg ha]
  · rw [if_neg h, if_neg h]
    show (t.cols ++ [(name, align vals t.nrows)]).map Prod.fst = t.cols.map Prod.fst ++ [name]
    rw [List.map_append]
    rfl

theorem Table.WF_setColRaw (t : Table) (name : String) (vals : List Cell) (h : t.WF) :
    (t.setColRaw name vals).WF := by
  unfold Table.setColRaw
  by_cases hc : t.hasCol name = true
  · rw [if_pos hc]
    intro c hmem
    rcases List.mem_map.mp hmem with ⟨a, ha, rfl⟩
    by_cases hb : (a.1 == name) = true
    · rw [if_pos hb]
      exact align_length _ _
    · rw [if_neg hb]
      exact h a ha
  · rw [if_neg hc]
    intro c hmem
    rcases List.mem_append.mp hmem with hm | hm
    · exact h c hm
    · rcases List.mem_singleton.mp hm with rfl
      exact align_length _ _

theorem Table.hasCol_growAll (t : Table) (w : List Cell) (n : Nat) (other : String) :
    (Table.mk n (t.cols.map (fun c => (c.1, w)))).hasCol other = t.hasCol other := by
  unfold Table.hasCol
  show ((t.cols.map (fun c => (c.1, w))).find? (fun c => c.1 == other)).isSome = _
  rw [find?_map_const_snd]
  cases t.cols.find? (fun c => c.1 == other) <;> rfl

theorem Table.getCol_growAll (t : Table) (w : List Cell) (n : Nat) (other : String) :
    (Table.mk n (t.cols.map (fun c => (c.1, w)))).getCol other
      = if t.hasCol other then w else [] := by
  unfold Table.getCol Table.hasCol
  show (match (t.cols.map (fun c => (c.1, w))).find? (fun c => c.1 == other) with
    | some c => c.2 | none => []) = _
  rw [find?_map_const_snd]
  cases t.cols.find? (fun c => c.1 == other) <;> rfl

theorem Table.WF_growAll (t : Table) (n : Nat) :
    (Table.mk n (t.cols.map (fun c => (c.1, List.replicate n Cell.nan)))).WF := by
  intro c hmem
  rcases List.mem_map.mp hmem with ⟨a, _, rfl⟩
  exact List.length_replicate _ _

theorem Table.colNames_growAll (t : Table) (w : List Cell) (n : Nat) :
    (Table.mk n (t.cols.map (fun c => (c.1, w)))).colNames = t.colNames := by
  unfold Table.colNames
  show (t.cols.map (fun c => (c.1, w))).map Prod.fst = _
  rw [List.map_map]
  rfl

theorem Table.nrows_setSeries (t : Table) (name : String) (vals : List Cell) :
    (t.setSeries name vals).nrows =
      if t.nrows = 0 ∧ vals ≠ [] then vals.length else t.nrows := by
  unfold Table.setSeries
  by_cases h : t.nrows = 0 ∧ vals ≠ []
  · rw [if_pos h, if_pos h, Table.nrows_setColRaw]
  · rw [if_neg h, if_neg h, Table.nrows_setColRaw]

theorem Table.getCol_setSeries_self (t : Table) (name : String) (vals : List Cell) :
    (t.setSeries name vals).getCol name =
      align vals (if t.nrows = 0 ∧ vals ≠ [] then vals.length else t.nrows) := by
  unfold Table.setSeries
  by_cases h : t.nrows = 0 ∧ vals ≠ []
  · rw [if_pos h, if_pos h, Table.getCol_setColRaw_self]
  · rw [if_neg h, if_neg h, Table.getCol_setColRaw_self]

theorem Table.getCol_setSeries_ne (t : Table) (name : String) (vals : List Cell)
    (other : String) (hne : other ≠ name) :
    (t.setSeries name vals).getCol other =
      if t.nrows = 0 ∧ vals ≠ [] then
        (if t.hasCol other then List.replicate vals.length Cell.nan else [])
      else t.getCol other := by
  unfold Table.setSeries
  by_cases h : t.nrows = 0 ∧ vals ≠ []
  · rw [if_pos h, if_pos h, Table.getCol_setColRaw_ne _ _ _ _ hne, Table.getCol_growAll]
  · rw [if_neg h, if_neg h, Table.getCol_setColRaw_ne _ _ _ _ hne]

theorem Table.hasCol_setSeries_self (t : Table) (name : String) (vals : List Cell) :
    (t.setSeries name vals).hasCol name = true := by
  unfold Table.setSeries
  by_cases h : t.nrows = 0 ∧ vals ≠ []
  · rw [if_pos h, Table.hasCol_setColRaw_self]
  · rw [if_neg h, Table.hasCol_setColRaw_self]

theorem Table.hasCol_setSeries_ne (t : Table) (name : String) (vals : List Cell)
    (other : String) (hne : other ≠ name) :
    (t.setSeries name vals).hasCol other = t.hasCol other := by
  unfold Table.setSeries
  by_cases h : t.nrows = 0 ∧ vals ≠ []
  · rw [if_pos h, Table.hasCol_setColRaw_ne _ _ _ _ hne, Table.hasCol_growAll]
  · rw [if_neg h, Table.hasCol_setColRaw_ne _ _ _ _ hne]

theorem Table.colNames_setSeries (t : Table) (name : String) (vals : List Cell) :
    (t.setSeries name vals).colNames =
      if t.hasCol name then t.colNames else t.colNames ++ [name] := by
  unfold Table.setSeries
  by_cases h : t.nrows = 0 ∧ vals ≠ []
  · rw [if_pos h, Table.colNames_setColRaw, Table.hasCol_growAll, Table.colNames_growAll]
  · rw [if_neg h, Table.colNames_setColRaw]

theorem Table.WF_setSeries (t : Table) (name : String) (vals : List Cell) (h : t.WF) :
    (t.setSeries name vals).WF := by
  unfold Table.setSeries
  by_cases hc : t.nrows = 0 ∧ vals ≠ []
  · rw [if_pos hc]
    exact Table.WF_setColRaw _ _ _ (Table.WF_growAll t vals.length)
  · rw [if_neg hc]
    exact Table.WF_setColRaw _ _ _ h

theorem Table.nrows_setAllNan (t : Table) (name : String) :
    (t.setAllNan name).nrows = t.nrows := Table.nrows_setColRaw _ _ _

theorem Table.getCol_setAllNan_self (t : Table) (name : String) :
    (t.setAllNan name).getCol name = List.replicate t.nrows Cell.nan := by
  unfold Table.setAllNan
  rw [Table.getCol_setColRaw_self, align_replicate]

theorem Table.getCol_setAllNan_ne (t : Table) (name other : String) (hne : other ≠ name) :
    (t.setAllNan name).getCol other = t.getCol other :=
  Table.getCol_setColRaw_ne _ _ _ _ hne

theorem Table.hasCol_setAllNan_self (t : Table) (name : String) :
    (t.setAllNan name).hasCol name = true := Table.hasCol_setColRaw_self _ _ _

theorem Table.hasCol_setAllNan_ne (t : Table) (name other : String) (hne : other ≠ name) :
    (t.setAllNan name).hasCol other = t.hasCol other :=
  Table.hasCol_setColRaw_ne _ _ _ _ hne

theorem Table.colNames_setAllNan (t : Table) (name : String) :
    (t.setAllNan name).colNames =
      if t.hasCol name then t.colNames else t.colNames ++ [name] :=
  Table.colNames_setColRaw _ _ _

theorem Table.WF_setAllNan (t : Table) (name : String) (h : t.WF) :
    (t.setAllNan name).WF := Table.WF_setColRaw _ _ _ h

/-! ### Source-table facts and lemmas about one mapping-loop step -/

theorem loopResolve_hasCol (df : Table) (rule : AliasRule) (c : String)
    (h : loopResolve df rule = some c) : df.hasCol c = true := by
  cases rule with
  | noMap => simp [loopResolve] at h
  | direct s =>
    rw [show loopResolve df (AliasRule.direct s)
      = (if s ≠ "" ∧ df.hasCol s then some s else none) from rfl] at h
    by_cases hc : s ≠ "" ∧ df.hasCol s
    · rw [if_pos hc] at h
      cases h
      exact hc.2
    · rw [if_neg hc] at h
      cases h
  | fallback cands =>
    rw [show loopResolve df (AliasRule.fallback cands)
      = cands.find? (fun c => df.hasCol c) from rfl] at h
    exact List.find?_some h

theorem Table.getCol_length_of_hasCol (df : Table) (c : String) (hwf : df.WF)
    (h : df.hasCol c = true) : (df.getCol c).length = df.nrows := by
  unfold Table.hasCol at h
  rcases Option.isSome_iff_exists.mp h with ⟨p, hp⟩
  unfold Table.getCol
  rw [hp]
  exact hwf p (List.mem_of_find?_eq_some hp)

theorem Table.nrows_applyRule (df t : Table) (target : String) (rule : AliasRule)
    (hwf : df.WF) :
    (applyRule df t target rule).nrows =
      match loopResolve df rule with
      | some _ => if t.nrows = 0 then df.nrows else t.nrows
      | none => t.nrows := by
  unfold applyRule
  cases hr : loopResolve df rule with
  | none => exact Table.nrows_setAllNan _ _
  | some c =>
    have hlen : (df.getCol c).length = df.nrows :=
      df.getCol_length_of_hasCol c hwf (loopResolve_hasCol df rule c hr)
    rw [Table.nrows_setSeries]
    by_cases h0 : t.nrows = 0
    · by_cases hv : df.getCol c = []
      · rw [if_neg (by simp [hv]), if_pos h0, ← hlen, hv]
        exact h0
      · rw [if_pos ⟨h0, hv⟩, if_pos h0, hlen]
    · rw [if_neg (by simp [h0]), if_neg h0]

theorem Table.WF_applyRule (df t : Table) (target : String) (rule : AliasRule)
    (h : t.WF) : (applyRule df t target rule).WF := by
  unfold applyRule
  cases loopResolve df rule with
  | none => exact Table.WF_setAllNan _ _ h
  | some c => exact Table.WF_setSeries _ _ _ h

theorem Table.hasCol_applyRule_ne (df t : Table) (target : String) (rule : AliasRule)
    (other : String) (hne : other ≠ target) :
    (applyRule df t target rule).hasCol other = t.hasCol other := by
  unfold applyRule
  cases loopResolve df rule with
  | none => exact Table.hasCol_setAllNan_ne _ _ _ hne
  | some c => exact Table.hasCol_setSeries_ne _ _ _ _ hne

theorem Table.hasCol_applyRule_self (df t : Table) (target : String) (rule : AliasRule) :
    (applyRule df t target rule).hasCol target = true := by
  unfold applyRule
  cases loopResolve df rule with
  | none => exact Table.hasCol_setAllNan_self _ _
  | some c => exact Table.hasCol_setSeries_self _ _ _

theorem Table.colNames_applyRule (df t : Table) (target : String) (rule : AliasRule) :
    (applyRule df t target rule).colNames =
      if t.hasCol target then t.colNames else t.colNames ++ [target] := by
  unfold applyRule
  cases loopResolve df rule with
  | none => exact Table.colNames_setAllNan _ _
  | some c => exact Table.colNames_setSeries _ _ _

/-! ### Lemmas about the mapping-loop fold -/

theorem foldl_WF (df : Table) (m : Mapper) (t : Table) (h : t.WF) :
    (m.foldl (mapStep df) t).WF := by
  induction m generalizing t with
  | nil => exact h
  | cons p m ih =>
    rw [List.foldl_cons]
    exact ih _ (Table.WF_applyRule df t p.1 p.2 h)

theorem foldl_nrows (df : Table) (hwf : df.WF) (m : Mapper) (t : Table) :
    (m.foldl (mapStep df) t).nrows =
      if m.any (fun p => (loopResolve df p.2).isSome) then
        (if t.nrows = 0 then df.nrows else t.nrows)
      else t.nrows := by
  induction m generalizing t with
  | nil => simp
  | cons p m ih =>
    rw [List.foldl_cons, ih (mapStep df t p)]
    have hn := Table.nrows_applyRule df t p.1 p.2 hwf
    cases hr : loopResolve df p.2 with
    | none =>
      rw [hr] at hn
      have hstep : (mapStep df t p).nrows = t.nrows := hn
      rw [hstep]
      have : (p :: m).any (fun p => (loopResolve df p.2).isSome)
          = m.any (fun p => (loopResolve df p.2).isSome) := by
        simp [List.any_cons, hr]
      rw [this]
    | some c =>
      rw [hr] at hn
      have hstep : (mapStep df t p).nrows = if t.nrows = 0 then df.nrows else t.nrows := hn
      have hany : (p :: m).any (fun p => (loopResolve df p.2).isSome) = true := by
        simp [List.any_cons, hr]
      rw [hany, hstep, if_pos rfl]
      split_ifs <;> omega

/-- A loop iteration for a different key leaves a still-all-NaN column
all-NaN (an empty-frame growth merely re-pads it). -/
theorem Table.applyRule_inv_ne (df t : Table) (target : String) (rule : AliasRule)
    (other : String) (hne : other ≠ target)
    (hInv : t.hasCol other = true → t.getCol other = List.replicate t.nrows Cell.nan) :
    (applyRule df t target rule).hasCol other = true →
      (applyRule df t target rule).getCol other
        = List.replicate (applyRule df t target rule).nrows Cell.nan := by
  unfold applyRule
  cases hr : loopResolve df rule with
  | none =>
    intro hh
    rw [Table.getCol_setAllNan_ne _ _ _ hne, Table.nrows_setAllNan]
    exact hInv (by rw [← Table.hasCol_setAllNan_ne t target other hne]; exact hh)
  | some c =>
    intro hh
    have hhas : t.hasCol other = true := by
      rw [← Table.hasCol_setSeries_ne t target (df.getCol c) other hne]
      exact hh
    rw [Table.getCol_setSeries_ne _ _ _ _ hne, Table.nrows_setSeries]
    by_cases hg : t.nrows = 0 ∧ df.getCol c ≠ []
    · rw [if_pos hg, if_pos hg, if_pos hhas]
    · rw [if_neg hg, if_neg hg]
      exact hInv hhas

/-- Processing entries whose key differs from `target` leaves a still-all-NaN
`target` column all-NaN, and does not create or remove the column. -/
theorem foldl_inv_pre (df : Table) (target : String) (m : Mapper) :
    ∀ t : Table, (∀ p ∈ m, p.1 ≠ target) →
    (t.hasCol target = true → t.getCol target = List.replicate t.nrows Cell.nan) →
    ((m.foldl (mapStep df) t).hasCol target = t.hasCol target ∧
     ((m.foldl (mapStep df) t).hasCol target = true →
       (m.foldl (mapStep df) t).getCol target
         = List.replicate (m.foldl (mapStep df) t).nrows Cell.nan)) := by
  induction m with
  | nil => exact fun t _ hInv => ⟨rfl, hInv⟩
  | cons p m ih =>
    intro t hm hInv
    have hp : p.1 ≠ target := hm p (List.mem_cons_self p m)
    have hne : target ≠ p.1 := Ne.symm hp
    have hstep_has : (mapStep df t p).hasCol target = t.hasCol target :=
      Table.hasCol_applyRule_ne df t p.1 p.2 target hne
    have hstep_inv := Table.applyRule_inv_ne df t p.1 p.2 target hne hInv
    have := ih (mapStep df t p) (fun q hq => hm q (List.mem_cons_of_mem p hq)) hstep_inv
    rw [List.foldl_cons]
    exact ⟨this.1.trans hstep_has, this.2⟩

/-- The effect, on the `target` column itself, of the loop iteration that
processes `target`. -/
theorem applyRule_at_target (df t : Table) (target : String) (rule : AliasRule)
    (hwf : df.WF) (ht : t.nrows = 0 ∨ t.nrows = df.nrows) :
    (applyRule df t target rule).getCol target =
      match loopResolve df rule with
      | some c => df.getCol c
      | none => List.replicate (applyRule df t target rule).nrows Cell.nan := by
  unfold applyRule
  cases hr : loopResolve df rule with
  | none => rw [Table.getCol_setAllNan_self, Table.nrows_setAllNan]
  | some c =>
    have hlen : (df.getCol c).length = df.nrows :=
      df.getCol_length_of_hasCol c hwf (loopResolve_hasCol df rule c hr)
    show (t.setSeries target (df.getCol c)).getCol target = df.getCol c
    rw [Table.getCol_setSeries_self]
    by_cases hg : t.nrows = 0 ∧ df.getCol c ≠ []
    · rw [if_pos hg]
      exact align_self _
    · rw [if_neg hg]
      rcases ht with h0 | hdf
      · have hv : df.getCol c = [] := by
          by_contra hv
          exact hg ⟨h0, hv⟩
        rw [h0, hv]
        rfl
      · rw [hdf, ← hlen]
        exact align_self _

/-- Once the `target` column holds source data (and the frame is at the
source's row count), later iterations for other keys do not disturb it. -/
theorem foldl_post_resolved (df : Table) (target : String) (x : List Cell) (m : Mapper)
    (hwf : df.WF) :
    ∀ t : Table, (∀ p ∈ m, p.1 ≠ target) → t.nrows = df.nrows →
    t.getCol target = x →
    ((m.foldl (mapStep df) t).getCol target = x ∧
     (m.foldl (mapStep df) t).nrows = df.nrows) := by
  induction m with
  | nil => exact fun t _ hn hx => ⟨hx, hn⟩
  | cons p m ih =>
    intro t hm hn hx
    have hp : p.1 ≠ target := hm p (List.mem_cons_self p m)
    have hne : target ≠ p.1 := Ne.symm hp
    have hstep_n : (mapStep df t p).nrows = df.nrows := by
      show (applyRule df t p.1 p.2).nrows = df.nrows
      rw [Table.nrows_applyRule df t p.1 p.2 hwf]
      cases loopResolve df p.2 with
      | none => exact hn
      | some c =>
        show (if t.nrows = 0 then df.nrows else t.nrows) = df.nrows
        rw [hn]
        split <;> rfl
    have hstep_x : (mapStep df t p).getCol target = x := by
      show (applyRule df t p.1 p.2).getCol target = x
      unfold applyRule
      cases hr : loopResolve df p.2 with
      | none => rw [Table.getCol_setAllNan_ne _ _ _ hne, hx]
      | some c =>
        rw [Table.getCol_setSeries_ne _ _ _ _ hne]
        have hlen : (df.getCol c).length = df.nrows :=
          df.getCol_length_of_hasCol c hwf (loopResolve_hasCol df p.2 c hr)
        by_cases hg : t.nrows = 0 ∧ df.getCol c ≠ []
        · exfalso
          have hz : df.nrows = 0 := by rw [← hn]; exact hg.1
          exact hg.2 (List.eq_nil_of_length_eq_zero (by rw [hlen, hz]))
        · rw [if_neg hg, hx]
    rw [List.foldl_cons]
    exact ih (mapStep df t p) (fun q hq => hm q (List.mem_cons_of_mem p hq)) hstep_n hstep_x

theorem emptyStd_getCol (name : String) : emptyStd.getCol name = [] := by
  unfold emptyStd Table.getCol
  cases hf : (MASTER_COLUMNS.map (fun c => (c, ([] : List Cell)))).find? (fun c => c.1 == name) with
  | none => rfl
  | some p =>
    rcases List.mem_map.mp (List.mem_of_find?_eq_some hf) with ⟨a, _, rfl⟩
    rfl

theorem emptyStd_WF : emptyStd.WF := by
  intro c hc
  rcases List.mem_map.mp hc with ⟨a, _, rfl⟩
  rfl

theorem applyRule_at_target_some (df t : Table) (target : String) (rule : AliasRule)
    (c : String) (hwf : df.WF) (ht : t.nrows = 0 ∨ t.nrows = df.nrows)
    (hr : loopResolve df rule = some c) :
    (applyRule df t target rule).getCol target = df.getCol c := by
  have h := applyRule_at_target df t target rule hwf ht
  rw [hr] at h
  exact h

theorem applyRule_at_target_none (df t : Table) (target : String) (rule : AliasRule)
    (hwf : df.WF) (ht : t.nrows = 0 ∨ t.nrows = df.nrows)
    (hr : loopResolve df rule = none) :
    (applyRule df t target rule).getCol target
      = List.replicate (applyRule df t target rule).nrows Cell.nan := by
  have h := applyRule_at_target df t target rule hwf ht
  rw [hr] at h
  exact h

/-- Closed form for one target column of the mapping loop, for a mapper that
mentions the target key exactly once. -/
theorem standardize_getCol_split (df : Table) (hwf : df.WF) (m1 m2 : Mapper)
    (target : String) (rule : AliasRule)
    (h1 : ∀ p ∈ m1, p.1 ≠ target) (h2 : ∀ p ∈ m2, p.1 ≠ target) :
    (standardize (m1 ++ (target, rule) :: m2) df).getCol target =
      match loopResolve df rule with
      | some c => df.getCol c
      | none =>
          List.replicate (standardize (m1 ++ (target, rule) :: m2) df).nrows Cell.nan := by
  unfold standardize
  rw [List.foldl_append, List.foldl_cons]
  have key : ∀ t1 : Table, t1.WF →
      (t1.hasCol target = true → t1.getCol target = List.replicate t1.nrows Cell.nan) →
      (t1.nrows = 0 ∨ t1.nrows = df.nrows) →
      (m2.foldl (mapStep df) (mapStep df t1 (target, rule))).getCol target =
        match loopResolve df rule with
        | some c => df.getCol c
        | none =>
            List.replicate (m2.foldl (mapStep df) (mapStep df t1 (target, rule))).nrows
              Cell.nan := by
    intro t1 hwf1 hInv1 ht
    cases hr : loopResolve df rule with
    | some c =>
      have hx : (mapStep df t1 (target, rule)).getCol target = df.getCol c :=
        applyRule_at_target_some df t1 target rule c hwf ht hr
      have hn2 : (mapStep df t1 (target, rule)).nrows = df.nrows := by
        have h := Table.nrows_applyRule df t1 target rule hwf
        rw [hr] at h
        have h' : (mapStep df t1 (target, rule)).nrows
            = if t1.nrows = 0 then df.nrows else t1.nrows := h
        rcases ht with h0 | hdf
        · rw [h', if_pos h0]
        · rw [h', hdf]
          split <;> rfl
      exact (foldl_post_resolved df target (df.getCol c) m2 hwf
        (mapStep df t1 (target, rule)) h2 hn2 hx).1
    | none =>
      have hx : (mapStep df t1 (target, rule)).getCol target
          = List.replicate (mapStep df t1 (target, rule)).nrows Cell.nan :=
        applyRule_at_target_none df t1 target rule hwf ht hr
      have hhas : (mapStep df t1 (target, rule)).hasCol target = true :=
        Table.hasCol_applyRule_self df t1 target rule
      have hres := foldl_inv_pre df target m2 (mapStep df t1 (target, rule)) h2 (fun _ => hx)
      exact hres.2 (by rw [hres.1]; exact hhas)
  exact key (m1.foldl (mapStep df) emptyStd)
    (foldl_WF df m1 emptyStd emptyStd_WF)
    (foldl_inv_pre df target m1 emptyStd h1
      (fun _ => by rw [emptyStd_getCol]; rfl)).2
    (by
      rw [foldl_nrows df hwf m1 emptyStd]
      by_cases ha : m1.any (fun p => (loopResolve df p.2).isSome) = true
      · rw [if_pos ha]
        right
        rfl
      · rw [if_neg ha]
        left
        rfl)

/-- A mapper with pairwise-distinct keys splits around any of its entries. -/
theorem mapper_decomp (m : Mapper) (target : String) (rule : AliasRule)
    (hnd : (m.map Prod.fst).Nodup) (hmem : (target, rule) ∈ m) :
    ∃ m1 m2, m = m1 ++ (target, rule) :: m2 ∧
      (∀ p ∈ m1, p.1 ≠ target) ∧ (∀ p ∈ m2, p.1 ≠ target) := by
  rcases List.append_of_mem hmem with ⟨m1, m2, rfl⟩
  refine ⟨m1, m2, rfl, ?_, ?_⟩
  · intro p hp
    have h := (List.nodup_cons.mp (List.nodup_middle.mp (by simpa using hnd))).1
    intro he
    exact h (by
      rw [← he]
      exact List.mem_append_left _ (List.mem_map_of_mem Prod.fst hp))
  · intro p hp
    have h := (List.nodup_cons.mp (List.nodup_middle.mp (by simpa using hnd))).1
    intro he
    exact h (by
      rw [← he]
      exact List.mem_append_right _ (List.mem_map_of_mem Prod.fst hp))

theorem mapper_clim_keys_nodup : (mapper_clim.map Prod.fst).Nodup := by decide

/-- Closed form for any target column of `standardize mapper_clim`. -/
theorem standardize_getCol_clim (df : Table) (hwf : df.WF) (target : String)
    (rule : AliasRule) (hmem : (target, rule) ∈ mapper_clim) :
    (standardize mapper_clim df).getCol target =
      match loopResolve df rule with
      | some c => df.getCol c
      | none => List.replicate (standardize mapper_clim df).nrows Cell.nan := by
  rcases mapper_decomp mapper_clim target rule mapper_clim_keys_nodup hmem with
    ⟨m1, m2, heq, hm1, hm2⟩
  rw [heq]
  exact standardize_getCol_split df hwf m1 m2 target rule hm1 hm2

/-! ### Column names of the standardized frame -/

theorem Table.hasCol_eq_contains (t : Table) (name : String) :
    t.hasCol name = t.colNames.contains name := by
  unfold Table.hasCol Table.colNames
  induction t.cols with
  | nil => rfl
  | cons c cs ih =>
    by_cases hc : c.1 = name
    · rw [List.find?_cons_of_pos _ (by simp [hc]), List.map_cons, List.contains_cons]
      simp [hc]
    · rw [List.find?_cons_of_neg _ (by simp [hc]), List.map_cons, List.contains_cons]
      simp [Ne.symm hc, ih]

theorem foldl_colNames (df : Table) (m : Mapper) :
    ∀ t : Table, (m.foldl (mapStep df) t).colNames =
      m.foldl (fun ns (p : String × AliasRule) =>
        if ns.contains p.1 then ns else ns ++ [p.1]) t.colNames := by
  induction m with
  | nil => intro t; rfl
  | cons p m ih =>
    intro t
    rw [List.foldl_cons, List.foldl_cons, ih]
    congr 1
    rw [show mapStep df t p = applyRule df t p.1 p.2 from rfl, Table.colNames_applyRule,
      Table.hasCol_eq_contains]

/-- The first mapper key that is not a canonical column. -/
def thematicCol : String :=
  "Thematic Focus (Brief description of the main themes or sectors covered (e.g., agriculture, forestry, gender, employment).)"

/-- The second mapper key that is not a canonical column. -/
def implAgencyCol : String :=
  "Implementation Agency (Ministry/departments/boards, etc..)"

/-- The columns every standardized frame actually carries: the canonical
columns followed by the two mapper-only keys, in assignment order. -/
def stdColNames : List String := MASTER_COLUMNS ++ [thematicCol, implAgencyCol]

theorem standardize_colNames (df : Table) :
    (standardize mapper_clim df).colNames = stdColNames := by
  unfold standardize
  rw [foldl_colNames]
  decide

theorem standardize_hasCol_budgetTarget (df : Table) :
    (standardize mapper_clim df).hasCol budgetTarget = true := by
  rw [Table.hasCol_eq_contains, standardize_colNames]
  decide

theorem mapAndNormalize_colNames (df : Table) :
    (mapAndNormalize mapper_clim df).colNames = stdColNames := by
  unfold mapAndNormalize applyBudget
  cases hr : resolveBudgetCol mapper_clim df with
  | none => exact standardize_colNames df
  | some c =>
    rw [Table.colNames_setSeries, if_pos (standardize_hasCol_budgetTarget df),
      standardize_colNames]

/-! ### Lemmas about dropping all-NaN rows -/

theorem Table.colNames_dropEmptyRows (t : Table) :
    (dropEmptyRows t).colNames = t.colNames := by
  unfold dropEmptyRows Table.colNames
  rw [List.map_map]
  rfl

theorem Table.nrows_dropEmptyRows (t : Table) :
    (dropEmptyRows t).nrows = (keptRows t).length := rfl

theorem find?_map_snd_dep (cols : List (String × List Cell))
    (g : String × List Cell → List Cell) (name : String) :
    (cols.map (fun c => (c.1, g c))).find? (fun c => c.1 == name)
      = (cols.find? (fun c => c.1 == name)).map (fun c => (c.1, g c)) := by
  induction cols with
  | nil => rfl
  | cons c cs ih =>
    by_cases hc : c.1 = name
    · rw [List.map_cons, List.find?_cons_of_pos _ (by simp [hc]),
        List.find?_cons_of_pos _ (by simp [hc])]
      rfl
    · rw [List.map_cons, List.find?_cons_of_neg _ (by simp [hc]),
        List.find?_cons_of_neg _ (by simp [hc])]
      exact ih

theorem Table.getCol_dropEmptyRows (t : Table) (name : String) (h : t.hasCol name = true) :
    (dropEmptyRows t).getCol name
      = (keptRows t).map (fun i => (t.getCol name).getD i Cell.nan) := by
  unfold dropEmptyRows Table.getCol
  rw [find?_map_snd_dep]
  unfold Table.hasCol at h
  rcases Option.isSome_iff_exists.mp h with ⟨p, hp⟩
  rw [hp]
  rfl

theorem dropEmptyRows_rows (t : Table) :
    (List.range (dropEmptyRows t).nrows).map ((dropEmptyRows t).row)
      = (keptRows t).map t.row := by
  apply List.ext_getElem
  · simp [Table.nrows_dropEmptyRows]
  · intro j h1 h2
    rw [List.getElem_map, List.getElem_map, List.getElem_range]
    have hj : j < (keptRows t).length := by
      simpa [Table.nrows_dropEmptyRows] using h2
    show (dropEmptyRows t).row j = t.row ((keptRows t)[j])
    unfold dropEmptyRows Table.row
    rw [List.map_map]
    apply List.map_congr_left
    intro c _
    show ((keptRows t).map (fun i => c.2.getD i Cell.nan)).getD j Cell.nan
      = c.2.getD ((keptRows t)[j]) Cell.nan
    rw [List.getD_eq_getElem _ _ (by simpa using hj), List.getElem_map]

/-! ### The budget normalizer on `mapper_clim` -/

theorem resolveBudget_clim (df : Table) :
    resolveBudgetCol mapper_clim df
      = if df.hasCol budgetSrcName = true then some budgetSrcName else none := by
  unfold resolveBudgetCol
  rw [show mapper_clim.find? (fun p => p.1 == budgetTarget)
      = some (budgetTarget, AliasRule.direct budgetSrcName) from by decide]
  show (if budgetSrcName ≠ "" ∧ df.hasCol budgetSrcName then some budgetSrcName else none) = _
  by_cases h : df.hasCol budgetSrcName = true
  · rw [if_pos ⟨by decide, h⟩, if_pos h]
  · rw [if_neg (fun hc => h hc.2), if_neg h]

theorem loopResolve_budget (df : Table) :
    loopResolve df (AliasRule.direct budgetSrcName)
      = if df.hasCol budgetSrcName = true then some budgetSrcName else none := by
  show (if budgetSrcName ≠ "" ∧ df.hasCol budgetSrcName then some budgetSrcName else none) = _
  by_cases h : df.hasCol budgetSrcName = true
  · rw [if_pos ⟨by decide, h⟩, if_pos h]
  · rw [if_neg (fun hc => h hc.2), if_neg h]

theorem budget_entry_mem : (budgetTarget, AliasRule.direct budgetSrcName) ∈ mapper_clim := by
  decide

theorem standardize_nrows_budget (df : Table) (hwf : df.WF)
    (hb : df.hasCol budgetSrcName = true) :
    (standardize mapper_clim df).nrows = df.nrows := by
  unfold standardize
  rw [foldl_nrows df hwf mapper_clim emptyStd]
  have hany : mapper_clim.any (fun p => (loopResolve df p.2).isSome) = true := by
    apply List.any_eq_true.mpr
    refine ⟨(budgetTarget, AliasRule.direct budgetSrcName), budget_entry_mem, ?_⟩
    show (loopResolve df (AliasRule.direct budgetSrcName)).isSome = true
    rw [loopResolve_budget, if_pos hb]
    rfl
  rw [if_pos hany]
  show (if emptyStd.nrows = 0 then df.nrows else emptyStd.nrows) = df.nrows
  rfl

theorem mapAndNormalize_of_no_budget (df : Table) (hb : df.hasCol budgetSrcName = false) :
    mapAndNormalize mapper_clim df = standardize mapper_clim df := by
  unfold mapAndNormalize applyBudget
  rw [resolveBudget_clim, if_neg (by simp [hb])]

theorem mapAndNormalize_budget_col (df : Table) (hwf : df.WF)
    (hb : df.hasCol budgetSrcName = true) :
    (mapAndNormalize mapper_clim df).getCol budgetTarget
        = (df.getCol budgetSrcName).map budgetValue ∧
      (mapAndNormalize mapper_clim df).nrows = df.nrows := by
  unfold mapAndNormalize applyBudget
  rw [resolveBudget_clim, if_pos hb]
  show ((standardize mapper_clim df).setSeries budgetTarget
      ((df.getCol budgetSrcName).map budgetValue)).getCol budgetTarget = _ ∧ _
  have hstd_n : (standardize mapper_clim df).nrows = df.nrows :=
    standardize_nrows_budget df hwf hb
  have hlen : ((df.getCol budgetSrcName).map budgetValue).length = df.nrows := by
    rw [List.length_map]
    exact df.getCol_length_of_hasCol budgetSrcName hwf hb
  constructor
  · rw [Table.getCol_setSeries_self]
    by_cases hg : (standardize mapper_clim df).nrows = 0 ∧
        (df.getCol budgetSrcName).map budgetValue ≠ []
    · exfalso
      apply hg.2
      apply List.eq_nil_of_length_eq_zero
      rw [hlen, ← hstd_n, hg.1]
    · rw [if_neg hg, hstd_n, ← hlen]
      exact align_self _
  · rw [Table.nrows_setSeries]
    by_cases hg : (standardize mapper_clim df).nrows = 0 ∧
        (df.getCol budgetSrcName).map budgetValue ≠ []
    · rw [if_pos hg, hlen]
    · rw [if_neg hg, hstd_n]

theorem budgetValue_ne_nan (c : Cell) : budgetValue c ≠ Cell.nan := by
  unfold budgetValue
  exact fun h => Cell.noConfusion h

theorem keptRows_of_no_allnan (t : Table)
    (h : ∀ i, i < t.nrows → ∃ x ∈ t.row i, x ≠ Cell.nan) :
    keptRows t = List.range t.nrows := by
  unfold keptRows
  apply List.filter_eq_self.mpr
  intro i hi
  rcases h i (List.mem_range.mp hi) with ⟨x, hx, hne⟩
  have hall : (t.row i).all (fun c => c == Cell.nan) = false := by
    apply Bool.eq_false_iff.mpr
    intro hall
    exact hne (by simpa using List.all_eq_true.mp hall x hx)
  rw [hall]
  rfl

theorem mapAndNormalize_hasCol_budgetTarget (df : Table) :
    (mapAndNormalize mapper_clim df).hasCol budgetTarget = true := by
  rw [Table.hasCol_eq_contains, mapAndNormalize_colNames]
  decide

theorem processTable_budget (df : Table) (hwf : df.WF)
    (hb : df.hasCol budgetSrcName = true) :
    (processTable mapper_clim df).nrows = df.nrows ∧
    (processTable mapper_clim df).getCol budgetTarget
      = (df.getCol budgetSrcName).map budgetValue := by
  have hcol := (mapAndNormalize_budget_col df hwf hb).1
  have hn := (mapAndNormalize_budget_col df hwf hb).2
  have hlen : ((df.getCol budgetSrcName).map budgetValue).length = df.nrows := by
    rw [List.length_map]
    exact df.getCol_length_of_hasCol budgetSrcName hwf hb
  have hhas := mapAndNormalize_hasCol_budgetTarget df
  rcases Option.isSome_iff_exists.mp hhas with ⟨p, hp⟩
  have hpmem : p ∈ (mapAndNormalize mapper_clim df).cols := List.mem_of_find?_eq_some hp
  have hpval : p.2 = (df.getCol budgetSrcName).map budgetValue := by
    rw [← hcol]
    unfold Table.getCol
    rw [hp]
  have hkept : keptRows (mapAndNormalize mapper_clim df)
      = List.range (mapAndNormalize mapper_clim df).nrows := by
    apply keptRows_of_no_allnan
    intro i hi
    refine ⟨p.2.getD i Cell.nan, ?_, ?_⟩
    · exact List.mem_map_of_mem (fun c => c.2.getD i Cell.nan) hpmem
    · rw [hpval]
      have hilt : i < ((df.getCol budgetSrcName).map budgetValue).length := by
        rw [hlen, ← hn]
        exact hi
      rw [List.getD_eq_getElem _ _ hilt, List.getElem_map]
      exact budgetValue_ne_nan _
  constructor
  · show (keptRows (mapAndNormalize mapper_clim df)).length = df.nrows
    rw [hkept, List.length_range, hn]
  · show (dropEmptyRows (mapAndNormalize mapper_clim df)).getCol budgetTarget = _
    rw [Table.getCol_dropEmptyRows _ _ hhas, hkept, hcol]
    show align ((df.getCol budgetSrcName).map budgetValue)
        (mapAndNormalize mapper_clim df).nrows = _
    rw [hn, ← hlen]
    exact align_self _

theorem standardize_budget_missing (df : Table) (hwf : df.WF)
    (hb : df.hasCol budgetSrcName = false) :
    (standardize mapper_clim df).getCol budgetTarget
      = List.replicate (standardize mapper_clim df).nrows Cell.nan := by
  have h := standardize_getCol_clim df hwf budgetTarget
    (AliasRule.direct budgetSrcName) budget_entry_mem
  rw [loopResolve_budget, if_neg (by simp [hb])] at h
  exact h

theorem processTable_budget_missing (df : Table) (hwf : df.WF)
    (hb : df.hasCol budgetSrcName = false) :
    (processTable mapper_clim df).getCol budgetTarget
      = List.replicate (processTable mapper_clim df).nrows Cell.nan := by
  have hmn := mapAndNormalize_of_no_budget df hb
  have hstd := standardize_budget_missing df hwf hb
  have hhas := mapAndNormalize_hasCol_budgetTarget df
  show (dropEmptyRows (mapAndNormalize mapper_clim df)).getCol budgetTarget
    = List.replicate (keptRows (mapAndNormalize mapper_clim df)).length Cell.nan
  rw [Table.getCol_dropEmptyRows _ _ hhas]
  rw [show (mapAndNormalize mapper_clim df).getCol budgetTarget
      = List.replicate (standardize mapper_clim df).nrows Cell.nan from by rw [hmn, hstd]]
  have hconst : (keptRows (mapAndNormalize mapper_clim df)).map
      (fun i => (List.replicate (standardize mapper_clim df).nrows Cell.nan).getD i Cell.nan)
      = (keptRows (mapAndNormalize mapper_clim df)).map (fun _ => Cell.nan) := by
    apply List.map_congr_left
    intro i _
    exact getD_replicate _ _ _
  rw [hconst]
  exact List.map_const' _ _

theorem mapAndNormalize_nrows (df : Table) (hwf : df.WF) :
    (mapAndNormalize mapper_clim df).nrows =
      if mapper_clim.any (fun p => (loopResolve df p.2).isSome) then df.nrows else 0 := by
  by_cases hb : df.hasCol budgetSrcName = true
  · have hany : mapper_clim.any (fun p => (loopResolve df p.2).isSome) = true := by
      apply List.any_eq_true.mpr
      refine ⟨(budgetTarget, AliasRule.direct budgetSrcName), budget_entry_mem, ?_⟩
      show (loopResolve df (AliasRule.direct budgetSrcName)).isSome = true
      rw [loopResolve_budget, if_pos hb]
      rfl
    rw [(mapAndNormalize_budget_col df hwf hb).2, if_pos hany]
  · rw [mapAndNormalize_of_no_budget df (Bool.eq_false_iff.mpr hb)]
    unfold standardize
    rw [foldl_nrows df hwf mapper_clim emptyStd]
    by_cases ha : mapper_clim.any (fun p => (loopResolve df p.2).isSome) = true
    · rw [if_pos ha, if_pos ha]
      rfl
    · rw [if_neg ha, if_neg ha]
      rfl

theorem not_all_eq_any_not (l : List Cell) (p : Cell → Bool) :
    (!(l.all p)) = l.any (fun c => !(p c)) := by
  induction l with
  | nil => rfl
  | cons c cs ih => simp [List.all_cons, List.any_cons, Bool.not_and, ih]

theorem keptRows_eq_filter_any (t : Table) :
    keptRows t
      = (List.range t.nrows).filter (fun i => (t.row i).any (fun c => !(c == Cell.nan))) := by
  unfold keptRows
  apply List.filter_congr
  intro i _
  exact not_all_eq_any_not _ _

/-! ### Concatenation and identifier renumbering -/

theorem contains_of_mem (l : List String) (a : String) (h : a ∈ l) : l.contains a = true := by
  induction l with
  | nil => cases h
  | cons b bs ih =>
    rw [List.contains_cons]
    rcases List.mem_cons.mp h with rfl | hm
    · simp
    · rw [ih hm, Bool.or_true]

theorem find?_map_of_names (names : List String) (g : String → List Cell) (name : String) :
    (names.map (fun n => (n, g n))).find? (fun c => c.1 == name)
      = (names.find? (fun n => n == name)).map (fun n => (n, g n)) := by
  induction names with
  | nil => rfl
  | cons n ns ih =>
    by_cases hn : n = name
    · rw [List.map_cons, List.find?_cons_of_pos _ (by simp [hn]),
        List.find?_cons_of_pos _ (by simp [hn])]
      rfl
    · rw [List.map_cons, List.find?_cons_of_neg _ (by simp [hn]),
        List.find?_cons_of_neg _ (by simp [hn])]
      exact ih

theorem find?_beq_self (names : List String) (name : String) (h : name ∈ names) :
    names.find? (fun n => n == name) = some name := by
  induction names with
  | nil => cases h
  | cons n ns ih =>
    by_cases hn : n = name
    · rw [List.find?_cons_of_pos _ (by simp [hn]), hn]
    · rw [List.find?_cons_of_neg _ (by simp [hn])]
      rcases List.mem_cons.mp h with rfl | hm
      · exact absurd rfl hn
      · exact ih hm

theorem concatTables_nrows (t0 : Table) (rest : List Table) :
    (concatTables (t0 :: rest)).nrows = ((t0 :: rest).map Table.nrows).sum := rfl

theorem concatTables_colNames (t0 : Table) (rest : List Table) :
    (concatTables (t0 :: rest)).colNames = t0.colNames := by
  show (t0.colNames.map _).map Prod.fst = t0.colNames
  rw [List.map_map]
  exact List.map_id _

theorem concatTables_getCol (t0 : Table) (rest : List Table) (name : String)
    (h : name ∈ t0.colNames) :
    (concatTables (t0 :: rest)).getCol name
      = ((t0 :: rest).map (fun t => align (t.getCol name) t.nrows)).flatten := by
  unfold concatTables Table.getCol
  rw [find?_map_of_names, find?_beq_self _ _ h]
  rfl

theorem align_getCol_of_WF (t : Table) (name : String) (hwf : t.WF)
    (h : t.hasCol name = true) : align (t.getCol name) t.nrows = t.getCol name := by
  rw [← t.getCol_length_of_hasCol name hwf h]
  exact align_self _

theorem Table.hasCol_of_mem_colNames (t : Table) (name : String) (h : name ∈ t.colNames) :
    t.hasCol name = true := by
  rw [Table.hasCol_eq_contains]
  exact contains_of_mem _ _ h

theorem renumberSlNo_nrows (t : Table) : (renumberSlNo t).nrows = t.nrows :=
  Table.nrows_setColRaw _ _ _

theorem align_of_length (vals : List Cell) (n : Nat) (h : vals.length = n) :
    align vals n = vals := by
  rw [← h]
  exact align_self _

theorem renumberSlNo_getCol_self (t : Table) :
    (renumberSlNo t).getCol "Sl No" = (List.range t.nrows).map (fun i => Cell.nat (i + 1)) := by
  unfold renumberSlNo
  rw [Table.getCol_setColRaw_self]
  exact align_of_length _ _ (by simp)

theorem renumberSlNo_getCol_ne (t : Table) (other : String) (hne : other ≠ "Sl No") :
    (renumberSlNo t).getCol other = t.getCol other :=
  Table.getCol_setColRaw_ne _ _ _ _ hne

/-! ### Claim theorems -/

theorem find?_first_candidate (df : Table) (pre post : List String) (c : String)
    (hpre : ∀ p ∈ pre, df.hasCol p = false) (hc : df.hasCol c = true) :
    (pre ++ c :: post).find? (fun x => df.hasCol x) = some c := by
  induction pre with
  | nil => rw [List.nil_append, List.find?_cons_of_pos _ hc]
  | cons p ps ih =>
    rw [List.cons_append,
      List.find?_cons_of_neg _ (by simp [hpre p (List.mem_cons_self p ps)])]
    exact ih (fun q hq => hpre q (List.mem_cons_of_mem p hq))

/-- C1: for every source table and every canonical field, the mapping loop
fills the field with NaN when its alias rule is `None`; copies the source
column when the rule is a single name present in the source and fills with
NaN otherwise; and for a list rule uses the first present candidate (all
earlier candidates absent), filling with NaN only when no candidate is
present. -/
theorem claim_C1 (df : Table) (hwf : df.WF) (target : String) (rule : AliasRule)
    (hmem : (target, rule) ∈ mapper_clim) (hcanon : target ∈ MASTER_COLUMNS) :
    (rule = AliasRule.noMap →
      (standardize mapper_clim df).getCol target
        = List.replicate (standardize mapper_clim df).nrows Cell.nan) ∧
    (∀ s : String, rule = AliasRule.direct s → s ≠ "" →
      (df.hasCol s = true →
        (standardize mapper_clim df).getCol target = df.getCol s) ∧
      (df.hasCol s = false →
        (standardize mapper_clim df).getCol target
          = List.replicate (standardize mapper_clim df).nrows Cell.nan)) ∧
    (∀ cands : List String, rule = AliasRule.fallback cands →
      (∀ pre c post, cands = pre ++ c :: post → (∀ p ∈ pre, df.hasCol p = false) →
        df.hasCol c = true →
        (standardize mapper_clim df).getCol target = df.getCol c) ∧
      ((∀ c ∈ cands, df.hasCol c = false) →
        (standardize mapper_clim df).getCol target
          = List.replicate (standardize mapper_clim df).nrows Cell.nan)) := by
  have hchar := standardize_getCol_clim df hwf target rule hmem
  refine ⟨?_, ?_, ?_⟩
  · intro hr
    subst hr
    exact hchar
  · intro s hr hs
    subst hr
    constructor
    · intro hb
      have hres : loopResolve df (AliasRule.direct s) = some s := by
        show (if s ≠ "" ∧ df.hasCol s then some s else none) = some s
        rw [if_pos ⟨hs, hb⟩]
      rw [hres] at hchar
      exact hchar
    · intro hb
      have hres : loopResolve df (AliasRule.direct s) = none := by
        show (if s ≠ "" ∧ df.hasCol s then some s else none) = none
        rw [if_neg (fun hc => by rw [hb] at hc; exact Bool.false_ne_true hc.2)]
      rw [hres] at hchar
      exact hchar
  · intro cands hr
    subst hr
    constructor
    · intro pre c post hc hpre hcc
      have hres : loopResolve df (AliasRule.fallback cands) = some c := by
        show cands.find? (fun x => df.hasCol x) = some c
        rw [hc]
        exact find?_first_candidate df pre post c hpre hcc
      rw [hres] at hchar
      exact hchar
    · intro hall
      have hres : loopResolve df (AliasRule.fallback cands) = none := by
        show cands.find? (fun x => df.hasCol x) = none
        apply List.find?_eq_none.mpr
        intro x hx
        simp [hall x hx]
      rw [hres] at hchar
      exact hchar

/-- C1 witness: with only the second candidate of the date field's rule
present, its values are copied into the canonical date field. -/
theorem claim_C1_witness :
    (standardize mapper_clim
        (Table.mk 2 [("Year of adoption", [Cell.str "2001", Cell.nan]),
          ("Country", [Cell.str "X", Cell.str "Y"])])).getCol "Publication/Adoption Date"
      = (Table.mk 2 [("Year of adoption", [Cell.str "2001", Cell.nan]),
          ("Country", [Cell.str "X", Cell.str "Y"])]).getCol "Year of adoption" :=
  ((claim_C1
      (Table.mk 2 [("Year of adoption", [Cell.str "2001", Cell.nan]),
        ("Country", [Cell.str "X", Cell.str "Y"])])
      (by decide) "Publication/Adoption Date"
      (AliasRule.fallback ["Publication/Adoption Date", "Year of adoption"])
      (by decide) (by decide)).2.2
    ["Publication/Adoption Date", "Year of adoption"] rfl).1
    ["Publication/Adoption Date"] "Year of adoption" [] rfl (by decide) (by decide)

theorem contains_iff_mem_str (l : List String) (a : String) :
    l.contains a = true ↔ a ∈ l := by
  show l.elem a = true ↔ a ∈ l
  exact List.elem_iff

/-- C2 counterexample: the cell `" not specified"` trims and lowercases to
the negative phrase `"not specified"`, yet the normalizer outputs `"Yes"`:
the code lowercases but never trims, so leading/trailing whitespace does
change the classification. -/
theorem claim_C2_counterexample :
    " not specified" = " " ++ "not specified" ∧
    no_strings.contains (lowerStr "not specified") = true ∧
    (processTable mapper_clim
        (Table.mk 1 [(budgetSrcName, [Cell.str " not specified"])])).getCol budgetTarget
      = [Cell.str "Yes"] := by
  decide

/-- C2 amended: with a backing budget column, the pre-drop budget field is
the per-cell normalization of that column, and a text cell maps to `"No"`
iff its lowercased (NOT trimmed) text is empty or exactly a negative
phrase; a missing cell maps to `"No"`, every other cell to `"Yes"`. -/
theorem claim_C2_amended (df : Table) (hwf : df.WF)
    (hb : df.hasCol budgetSrcName = true) :
    (mapAndNormalize mapper_clim df).getCol budgetTarget
        = (df.getCol budgetSrcName).map budgetValue ∧
    (∀ s : String, budgetValue (Cell.str s) = Cell.str "No" ↔
        (lowerStr s = "" ∨ lowerStr s ∈ no_strings)) ∧
    budgetValue Cell.nan = Cell.str "No" ∧
    (∀ c : Cell, budgetValue c = Cell.str "No" ∨ budgetValue c = Cell.str "Yes") := by
  refine ⟨(mapAndNormalize_budget_col df hwf hb).1, ?_, rfl, ?_⟩
  · intro s
    show Cell.str (if isNoCell (Cell.str s) then "No" else "Yes") = Cell.str "No" ↔ _
    by_cases h : isNoCell (Cell.str s) = true
    · rw [if_pos h]
      constructor
      · intro _
        have h' : (lowerStr s == "" || no_strings.contains (lowerStr s)) = true := h
        cases ho : (lowerStr s == "") with
        | true => exact Or.inl (by simpa using ho)
        | false =>
          rw [ho, Bool.false_or] at h'
          exact Or.inr ((contains_iff_mem_str _ _).mp h')
      · intro _
        rfl
    · rw [if_neg h]
      constructor
      · intro hc
        exact absurd hc (by decide)
      · intro hor
        exfalso
        apply h
        show (lowerStr s == "" || no_strings.contains (lowerStr s)) = true
        rcases hor with h1 | h2
        · rw [h1]
          rfl
        · rw [(contains_iff_mem_str _ _).mpr h2, Bool.or_true]
  · intro c
    unfold budgetValue
    by_cases h : isNoCell c = true
    · exact Or.inl (by rw [if_pos h])
    · exact Or.inr (by rw [if_neg h])

/-- C2 witness: concrete classification, upper case negative phrase → "No",
substantive text → "Yes", NaN → "No". -/
theorem claim_C2_witness :
    (mapAndNormalize mapper_clim
        (Table.mk 3 [(budgetSrcName,
          [Cell.str "NOT SPECIFIED", Cell.str "$2M allocated", Cell.nan])])).getCol budgetTarget
        = ((Table.mk 3 [(budgetSrcName,
          [Cell.str "NOT SPECIFIED", Cell.str "$2M allocated", Cell.nan])]).getCol
            budgetSrcName).map budgetValue ∧
    (∀ s : String, budgetValue (Cell.str s) = Cell.str "No" ↔
        (lowerStr s = "" ∨ lowerStr s ∈ no_strings)) ∧
    budgetValue Cell.nan = Cell.str "No" ∧
    (∀ c : Cell, budgetValue c = Cell.str "No" ∨ budgetValue c = Cell.str "Yes") :=
  claim_C2_amended
    (Table.mk 3 [(budgetSrcName,
      [Cell.str "NOT SPECIFIED", Cell.str "$2M allocated", Cell.nan])])
    (by decide) (by decide)

/-- C3 counterexample: the standardized table does not expose exactly the 18
canonical columns: the two mapper-only keys (the thematic-focus and the
implementation-agency columns) are appended as 19th and 20th columns. -/
theorem claim_C3_counterexample :
    (processTable mapper_clim (Table.mk 0 [])).colNames ≠ MASTER_COLUMNS ∧
    thematicCol ∉ MASTER_COLUMNS ∧
    thematicCol ∈ (processTable mapper_clim (Table.mk 0 [])).colNames ∧
    MASTER_COLUMNS.length = 18 ∧
    (processTable mapper_clim (Table.mk 0 [])).colNames.length = 20 := by
  decide

/-- C3 amended: the standardized table exposes the 18 canonical columns in
registry order, followed by the two extra mapper keys (in mapper order),
regardless of the source's columns. -/
theorem claim_C3_amended (df : Table) :
    (processTable mapper_clim df).colNames
      = MASTER_COLUMNS ++ [thematicCol, implAgencyCol] := by
  show (dropEmptyRows (mapAndNormalize mapper_clim df)).colNames = _
  rw [Table.colNames_dropEmptyRows, mapAndNormalize_colNames]
  rfl

/-- C4 counterexample: a source row mapping to a standardized row whose
every field is missing or the empty string is retained, because
`dropna(how='all')` treats the empty string as present. -/
theorem claim_C4_counterexample :
    (∀ c ∈ (mapAndNormalize mapper_clim (Table.mk 1 [("Country", [Cell.str ""])])).row 0,
      c = Cell.nan ∨ c = Cell.str "") ∧
    (processTable mapper_clim (Table.mk 1 [("Country", [Cell.str ""])])).nrows = 1 := by
  decide

/-- C4 amended: the rows of `process_file`'s result are exactly the mapped
rows having at least one cell that is not NaN, in source order; a row is
dropped only when every cell (empty strings counting as present) is NaN. -/
theorem claim_C4_amended (df : Table) :
    (List.range (processTable mapper_clim df).nrows).map ((processTable mapper_clim df).row)
      = ((List.range (mapAndNormalize mapper_clim df).nrows).filter
          (fun i => ((mapAndNormalize mapper_clim df).row i).any
            (fun c => !(c == Cell.nan)))).map
        ((mapAndNormalize mapper_clim df).row) := by
  have h := dropEmptyRows_rows (mapAndNormalize mapper_clim df)
  rw [keptRows_eq_filter_any] at h
  exact h

/-- C5: the master dataset is the concatenation of the standardized tables
in upload order with internal row order preserved, and its `Sl No` column is
recomputed as `1..N`, overwriting the mapped identifiers. -/
theorem claim_C5 (t0 : Table) (rest : List Table)
    (hcols : ∀ t ∈ t0 :: rest, t.colNames = stdColNames)
    (hwf : ∀ t ∈ t0 :: rest, t.WF) :
    (buildMaster (t0 :: rest)).nrows = ((t0 :: rest).map Table.nrows).sum ∧
    (buildMaster (t0 :: rest)).getCol "Sl No"
      = (List.range ((t0 :: rest).map Table.nrows).sum).map (fun i => Cell.nat (i + 1)) ∧
    ∀ name ∈ stdColNames, name ≠ "Sl No" →
      (buildMaster (t0 :: rest)).getCol name
        = ((t0 :: rest).map (fun t => t.getCol name)).flatten := by
  refine ⟨?_, ?_, ?_⟩
  · show (renumberSlNo (concatTables (t0 :: rest))).nrows = _
    rw [renumberSlNo_nrows, concatTables_nrows]
  · show (renumberSlNo (concatTables (t0 :: rest))).getCol "Sl No" = _
    rw [renumberSlNo_getCol_self, concatTables_nrows]
  · intro name hname hne
    show (renumberSlNo (concatTables (t0 :: rest))).getCol name = _
    rw [renumberSlNo_getCol_ne _ _ hne,
      concatTables_getCol _ _ _ (by
        rw [hcols t0 (List.mem_cons_self t0 rest)]
        exact hname)]
    congr 1
    apply List.map_congr_left
    intro t ht
    exact align_getCol_of_WF t name (hwf t ht)
      (t.hasCol_of_mem_colNames name (by rw [hcols t ht]; exact hname))

/-- C5 witness: tables of 3 and 2 rows concatenate to 5 rows, first table's
rows first, identifiers renumbered 1..5 over the original values 7,8,9,5,6. -/
theorem claim_C5_witness :
    (buildMaster [Table.mk 3 (stdColNames.map (fun n => (n, [Cell.nat 7, Cell.nat 8, Cell.nat 9]))),
        Table.mk 2 (stdColNames.map (fun n => (n, [Cell.nat 5, Cell.nat 6])))]).nrows
      = (([Table.mk 3 (stdColNames.map (fun n => (n, [Cell.nat 7, Cell.nat 8, Cell.nat 9]))),
        Table.mk 2 (stdColNames.map (fun n => (n, [Cell.nat 5, Cell.nat 6])))]).map
          Table.nrows).sum ∧
    (buildMaster [Table.mk 3 (stdColNames.map (fun n => (n, [Cell.nat 7, Cell.nat 8, Cell.nat 9]))),
        Table.mk 2 (stdColNames.map (fun n => (n, [Cell.nat 5, Cell.nat 6])))]).getCol "Sl No"
      = (List.range (([Table.mk 3 (stdColNames.map (fun n => (n, [Cell.nat 7, Cell.nat 8, Cell.nat 9]))),
        Table.mk 2 (stdColNames.map (fun n => (n, [Cell.nat 5, Cell.nat 6])))]).map
          Table.nrows).sum).map (fun i => Cell.nat (i + 1)) ∧
    ∀ name ∈ stdColNames, name ≠ "Sl No" →
      (buildMaster [Table.mk 3 (stdColNames.map (fun n => (n, [Cell.nat 7, Cell.nat 8, Cell.nat 9]))),
          Table.mk 2 (stdColNames.map (fun n => (n, [Cell.nat 5, Cell.nat 6])))]).getCol name
        = (([Table.mk 3 (stdColNames.map (fun n => (n, [Cell.nat 7, Cell.nat 8, Cell.nat 9]))),
          Table.mk 2 (stdColNames.map (fun n => (n, [Cell.nat 5, Cell.nat 6])))]).map
            (fun t => t.getCol name)).flatten :=
  claim_C5
    (Table.mk 3 (stdColNames.map (fun n => (n, [Cell.nat 7, Cell.nat 8, Cell.nat 9]))))
    [Table.mk 2 (stdColNames.map (fun n => (n, [Cell.nat 5, Cell.nat 6])))]
    (by decide) (by decide)

/-- C6: when the budget field's backing source column is absent, the
canonical budget field of the result is filled with NaN by the mapping
fallback; the normalizer never runs, so no "Yes"/"No" is written. -/
theorem claim_C6 (df : Table) (hwf : df.WF) (hb : df.hasCol budgetSrcName = false) :
    (processTable mapper_clim df).getCol budgetTarget
      = List.replicate (processTable mapper_clim df).nrows Cell.nan :=
  processTable_budget_missing df hwf hb

/-- C6 witness: a source with only a `Country` column yields an all-NaN
budget field. -/
theorem claim_C6_witness :
    (processTable mapper_clim (Table.mk 1 [("Country", [Cell.str "India"])])).getCol budgetTarget
      = List.replicate
          (processTable mapper_clim (Table.mk 1 [("Country", [Cell.str "India"])])).nrows
          Cell.nan :=
  claim_C6 (Table.mk 1 [("Country", [Cell.str "India"])]) (by decide) (by decide)

/-- C7 counterexample: a 1-row source none of whose columns matches any
alias rule maps to a 0-row table before the row-dropping step: scalar NaN
assignments never grow pandas' empty frame. -/
theorem claim_C7_counterexample :
    (Table.mk 1 [("X", [Cell.str "hello"])]).nrows = 1 ∧
    (mapper_clim.any
      (fun p => (loopResolve (Table.mk 1 [("X", [Cell.str "hello"])]) p.2).isSome)) = false ∧
    (mapAndNormalize mapper_clim (Table.mk 1 [("X", [Cell.str "hello"])])).nrows = 0 := by
  decide

/-- C7 amended: before row-dropping, the mapped table has the source's row
count when at least one alias rule resolves to a present source column, and
0 rows otherwise. -/
theorem claim_C7_amended (df : Table) (hwf : df.WF) :
    (mapAndNormalize mapper_clim df).nrows =
      if mapper_clim.any (fun p => (loopResolve df p.2).isSome) then df.nrows else 0 :=
  mapAndNormalize_nrows df hwf

/-- C7 witness: one matching column suffices for the pre-drop row count to
equal the source's. -/
theorem claim_C7_witness :
    (mapAndNormalize mapper_clim
        (Table.mk 2 [("Country", [Cell.str "A", Cell.str "B"])])).nrows =
      if mapper_clim.any
          (fun p => (loopResolve (Table.mk 2 [("Country", [Cell.str "A", Cell.str "B"])])
            p.2).isSome)
        then (Table.mk 2 [("Country", [Cell.str "A", Cell.str "B"])]).nrows else 0 :=
  claim_C7_amended (Table.mk 2 [("Country", [Cell.str "A", Cell.str "B"])]) (by decide)

/-- C9: `process_file` is deterministic: two applications of the mapper to
the same source table give identical standardized tables. -/
theorem claim_C9 (df : Option Table) (r1 r2 : Option Table)
    (h1 : process_file mapper_clim df = r1) (h2 : process_file mapper_clim df = r2) :
    r1 = r2 :=
  h1.symm.trans h2

/-- C9 witness: determinism at a concrete source table. -/
theorem claim_C9_witness :
    process_file mapper_clim (some (Table.mk 1 [("Country", [Cell.str "India"])]))
      = process_file mapper_clim (some (Table.mk 1 [("Country", [Cell.str "India"])])) :=
  claim_C9 (some (Table.mk 1 [("Country", [Cell.str "India"])])) _ _ rfl rfl

/-- C10: with a backing budget column every row of the result carries
"Yes" or "No" in the budget field, and since that cell is never NaN the
all-NaN drop removes nothing: the result keeps every source row. -/
theorem claim_C10 (df : Table) (hwf : df.WF) (hb : df.hasCol budgetSrcName = true) :
    (processTable mapper_clim df).nrows = df.nrows ∧
    ∀ c ∈ (processTable mapper_clim df).getCol budgetTarget,
      c = Cell.str "Yes" ∨ c = Cell.str "No" := by
  have h := processTable_budget df hwf hb
  refine ⟨h.1, ?_⟩
  intro c hc
  rw [h.2] at hc
  rcases List.mem_map.mp hc with ⟨x, _, rfl⟩
  unfold budgetValue
  by_cases hx : isNoCell x = true
  · exact Or.inr (by rw [if_pos hx])
  · exact Or.inl (by rw [if_neg hx])

/-- C10 witness: a source whose only column is the budget column (with one
NaN row) still keeps both rows, all budget cells "Yes"/"No". -/
theorem claim_C10_witness :
    (processTable mapper_clim
        (Table.mk 2 [(budgetSrcName, [Cell.str "$2M", Cell.nan])])).nrows
      = (Table.mk 2 [(budgetSrcName, [Cell.str "$2M", Cell.nan])]).nrows ∧
    ∀ c ∈ (processTable mapper_clim
        (Table.mk 2 [(budgetSrcName, [Cell.str "$2M", Cell.nan])])).getCol budgetTarget,
      c = Cell.str "Yes" ∨ c = Cell.str "No" :=
  claim_C10 (Table.mk 2 [(budgetSrcName, [Cell.str "$2M", Cell.nan])]) (by decide) (by decide)

theorem usable_eq_none_iff (f : Option Table) :
    usable f = none ↔ ∀ t : Table, process_file mapper_clim f = some t → t.nrows = 0 := by
  unfold usable
  cases hf : process_file mapper_clim f with
  | none =>
    constructor
    · intro _ t ht
      cases ht
    · intro _
      rfl
  | some t =>
    show (if t.nrows = 0 then none else some t) = none ↔ _
    by_cases hn : t.nrows = 0
    · rw [if_pos hn]
      constructor
      · intro _ t' ht'
        cases ht'
        exact hn
      · intro _
        rfl
    · rw [if_neg hn]
      constructor
      · intro hcontra
        cases hcontra
      · intro hall
        exact absurd (hall t rfl) hn

/-- C8: a file that fails to load contributes `None` and is skipped;
removing such a file from the batch does not change the assembled result;
and no master dataset is produced exactly when no file yields a table with
at least one row. -/
theorem claim_C8 :
    process_file mapper_clim none = none ∧
    (∀ xs ys : List (Option Table), assemble (xs ++ none :: ys) = assemble (xs ++ ys)) ∧
    (∀ files : List (Option Table),
      (assemble files = none ↔
        ∀ f ∈ files, ∀ t : Table, process_file mapper_clim f = some t → t.nrows = 0)) := by
  refine ⟨rfl, ?_, ?_⟩
  · intro xs ys
    unfold assemble
    rw [List.filterMap_append, List.filterMap_append, List.filterMap_cons]
    rfl
  · intro files
    unfold assemble
    by_cases h : (files.filterMap usable).isEmpty = true
    · rw [if_pos h]
      have hnil : files.filterMap usable = [] := by
        simpa [List.isEmpty_iff] using h
      constructor
      · intro _ f hf
        exact (usable_eq_none_iff f).mp (List.filterMap_eq_nil_iff.mp hnil f hf)
      · intro _
        rfl
    · rw [if_neg h]
      constructor
      · intro hcontra
        cases hcontra
      · intro hall
        exfalso
        apply h
        rw [List.isEmpty_iff]
        exact List.filterMap_eq_nil_iff.mpr (fun f hf => (usable_eq_none_iff f).mpr (hall f hf))
